import Mathlib

/-!
Verification of the URL Content Extraction & Normalization pipeline of the
knowledge-workspace repository (the `POST` handler of the analyze-url API
route, together with its helper functions `tryDecodeWithCharsets` and
`decodeHtmlEntities`).

The JavaScript/TypeScript source is shallowly embedded:
* JS strings are modelled as Lean `String` / `List Char` (sequences of Unicode
  scalar values).  JS indexes and lengths count UTF-16 code units; the model
  counts scalar values, which agrees on all inputs without astral-plane
  characters.  Lone surrogates are not representable as Lean `Char`; the one
  place where JS can produce them (`String.fromCharCode`) is documented at its
  model.
* The platform built-ins `fetch`, `TextDecoder` and the OpenAI HTTP call are
  external effects; they are modelled as an explicit environment (`Env`)
  passed to the pipeline: a fetch outcome, a strict-decoding oracle
  (`none` models a thrown `TypeError`), a lossy UTF-8 decoder, the presence
  of the `OPENAI_API_KEY` credential, and the provider-call outcome.
* The regular-expression operations of the source are implemented as
  executable scanners with the same matching semantics (leftmost match,
  greedy/lazy quantifiers as in the individual regexes, `/i` = ASCII
  case-insensitive comparison as produced by `Char.toLower`).
* All recursion is structural or fuel-based (fuel = input length, which every
  scanner consumes at least one character per step of), so every definition
  evaluates by kernel reduction.
-/

namespace KWA

/-! ## Basic character and list utilities -/

/-- ASCII lower-casing of a character, as `String.prototype.toLowerCase`
acts on the ASCII range (the only range the pipeline compares). -/
def lcChar (c : Char) : Char := c.toLower

/-- The character class `[a-zA-Z0-9]` of the entity regex. -/
def isAlnumAscii (c : Char) : Bool := c.isAlpha || c.isDigit

/-- The JS regex `\s` class (whitespace), covering the code points the
ECMAScript specification lists. -/
def jsIsSpace (c : Char) : Bool :=
  c = ' ' || c = '\t' || c = '\n' || c = '\r' || c = '\x0b' || c = '\x0c' ||
  c.toNat = 0xa0 || c.toNat = 0x1680 ||
  (0x2000 ≤ c.toNat && c.toNat ≤ 0x200a) ||
  c.toNat = 0x2028 || c.toNat = 0x2029 || c.toNat = 0x202f ||
  c.toNat = 0x205f || c.toNat = 0x3000 || c.toNat = 0xfeff

/-- Rebuild a `String` from its characters. -/
def strOf (l : List Char) : String := ⟨l⟩

/-- Case-insensitive prefix test (used for the `/i` regex flags). -/
def ciPrefixOf : List Char → List Char → Bool
  | [], _ => true
  | _ :: _, [] => false
  | p :: ps, c :: cs => (lcChar p = lcChar c) && ciPrefixOf ps cs

/-- `String.prototype.trim`: drop whitespace from both ends. -/
def trimChars (l : List Char) : List Char :=
  ((l.dropWhile jsIsSpace).reverse.dropWhile jsIsSpace).reverse

/-- Split a character list at every occurrence of the separator character,
as `String.prototype.split` with a one-character separator. -/
def splitOnChar (sep : Char) : List Char → List (List Char)
  | [] => [[]]
  | c :: rest =>
    match splitOnChar sep rest with
    | [] => [[]]
    | g :: gs => if c = sep then [] :: g :: gs else (c :: g) :: gs

/-- Number of positions of `l` at which `pat` occurs as a (contiguous)
substring; for nonempty `pat` this counts every occurrence. -/
def countOccurs (pat : List Char) : List Char → Nat
  | [] => 0
  | c :: rest =>
    (if List.isPrefixOf pat (c :: rest) then 1 else 0) + countOccurs pat rest

/-- `String.prototype.includes`: substring test (for nonempty patterns). -/
def hasSub (pat l : List Char) : Bool := countOccurs pat l != 0

/-- String-level substring test. -/
def strIncludes (s pat : String) : Bool := hasSub pat.data s.data

/-- Split at the first occurrence of a (nonempty) pattern, returning the
part before it and the part after it; `none` when the pattern is absent. -/
def splitAtSub (pat : List Char) : List Char → Option (List Char × List Char)
  | [] => none
  | c :: rest =>
    if List.isPrefixOf pat (c :: rest) then some ([], List.drop (pat.length - 1) rest)
    else
      match splitAtSub pat rest with
      | some (a, b) => some (c :: a, b)
      | none => none

/-- Drop everything up to and including the first case-insensitive occurrence
of a nonempty pattern; `none` when there is no occurrence. -/
def dropThroughCI (pat : List Char) : List Char → Option (List Char)
  | [] => none
  | c :: rest =>
    if ciPrefixOf pat (c :: rest) then some (List.drop (pat.length - 1) rest)
    else dropThroughCI pat rest

/-! ## JS numeric primitives used by the entity decoder -/

/-- Value of a character as a digit in base `b` (`0`–`9`, `a`–`z`, `A`–`Z`),
as `parseInt` accepts digits. -/
def digitValB (b : Nat) (c : Char) : Option Nat :=
  let v : Option Nat :=
    if '0' ≤ c ∧ c ≤ '9' then some (c.toNat - '0'.toNat)
    else if 'a' ≤ c ∧ c ≤ 'z' then some (c.toNat - 'a'.toNat + 10)
    else if 'A' ≤ c ∧ c ≤ 'Z' then some (c.toNat - 'A'.toNat + 10)
    else none
  match v with
  | some d => if d < b then some d else none
  | none => none

/-- Longest-prefix digit parse of `parseInt` (after sign/whitespace handling,
which never arises on the decoder's inputs): `none` models `NaN`. -/
def parseDigitsCore (b : Nat) (l : List Char) : Option Nat :=
  let ds := l.takeWhile (fun c => (digitValB b c).isSome)
  if ds.isEmpty then none
  else some (ds.foldl (fun a c => a * b + (digitValB b c).getD 0) 0)

/-- `parseInt(string, radix)` on the decoder's inputs.  For radix 16 an
optional leading `0x`/`0X` is stripped, per ECMAScript. -/
def jsParseInt (l : List Char) (b : Nat) : Option Nat :=
  if b = 16 then
    match l with
    | '0' :: 'x' :: r => parseDigitsCore 16 r
    | '0' :: 'X' :: r => parseDigitsCore 16 r
    | _ => parseDigitsCore 16 l
  else parseDigitsCore b l

/-- `String.fromCharCode(v)` where `v = parseInt(...)` and `none` models
`NaN`.  ECMAScript applies `ToUint16` (hence `% 65536`, and `NaN ↦ 0`).
A value in the surrogate range would produce a lone-surrogate JS string,
which Lean `Char` cannot represent; `Char.ofNat` maps it to `'\x00'`.
No claim below exercises surrogate values. -/
def jsFromCharCode (v : Option Nat) : String :=
  strOf [Char.ofNat ((v.getD 0) % 65536)]

/-! ## The HTML entity decoder (`decodeHtmlEntities` in the source) -/

/-- The `entityMap` object literal of the source. -/
def entityMap : List (String × String) :=
  [("&amp;", "&"), ("&lt;", "<"), ("&gt;", ">"), ("&quot;", "\""),
   ("&#39;", "\x27"), ("&apos;", "\x27"), ("&nbsp;", " ")]

/-- The replacement callback of `decodeHtmlEntities`: named-entity lookup,
then numeric character reference via `parseInt`/`fromCharCode` for tokens
starting `&#`, otherwise the token itself. -/
def resolveEntity (entity : String) : String :=
  match entityMap.find? (fun p => p.1 == entity) with
  | some p => p.2
  | none =>
    if List.isPrefixOf "&#".data entity.data then
      match (entity.data.drop 2).dropLast with
      | 'x' :: hx => jsFromCharCode (jsParseInt hx 16)
      | num => jsFromCharCode (jsParseInt num 10)
    else entity

/-- The maximal-ASCII-alphanumeric-run part of an entity match: the run
(which must be nonempty) followed immediately by `;`; returns the run and
the text after the `;`. -/
def matchRun (r1 : List Char) : Option (List Char × List Char) :=
  let run := r1.takeWhile isAlnumAscii
  if run.isEmpty then none
  else
    match r1.dropWhile isAlnumAscii with
    | ';' :: r3 => some (run, r3)
    | _ => none

/-- Attempted match of `&[#]?[a-zA-Z0-9]+;` at a position just after an
`&`: the `#` is taken when present (the run cannot supply it, `#` not being
alphanumeric), then `matchRun` finishes the token. -/
def matchEntity : List Char → Option (Bool × List Char × List Char)
  | '#' :: r1 =>
    (match matchRun r1 with
     | some (run, r3) => some (true, run, r3)
     | none => none)
  | rest =>
    (match matchRun rest with
     | some (run, r3) => some (false, run, r3)
     | none => none)

/-- The full matched token for a successful `matchEntity`. -/
def entityTok (hash : Bool) (run : List Char) : List Char :=
  '&' :: ((if hash then '#' :: run else run) ++ [';'])

/-- One pass of `text.replace(/&[#]?[a-zA-Z0-9]+;/g, cb)`: at each `&`,
a match per `matchEntity` is replaced via `resolveEntity` (replacements are
not rescanned); on no match the scan moves on by one character.
`fuel` bounds the recursion; the wrapper passes the input length, which
suffices since every step consumes at least one character. -/
def scanEntitiesF : Nat → List Char → List Char
  | 0, l => l
  | _ + 1, [] => []
  | fuel + 1, c :: rest =>
    if c = '&' then
      match matchEntity rest with
      | some (hash, run, r3) =>
        (resolveEntity (strOf (entityTok hash run))).data ++ scanEntitiesF fuel r3
      | none => c :: scanEntitiesF fuel rest
    else c :: scanEntitiesF fuel rest

/-- `decodeHtmlEntities` of the source. -/
def decodeHtmlEntities (s : String) : String :=
  strOf (scanEntitiesF s.data.length s.data)

/-! ## URL parsing (`new URL(url)` of the handler)

Models the WHATWG URL parser on the common
`scheme://host[:port][/path][?query][#fragment]` shape: the scheme must be
a letter followed by letters/digits/`+`/`-`/`.`, the host must be nonempty,
scheme and host are lower-cased, and an empty path becomes `/`.  Strings
without that shape fail to parse, as `new URL` throws on them. -/

structure URLRec where
  scheme : String
  hostname : String
  pathname : String
deriving DecidableEq

/-- Valid scheme per the URL Standard grammar. -/
def schemeOk : List Char → Bool
  | [] => false
  | c :: rest =>
    c.isAlpha && rest.all (fun c => c.isAlpha || c.isDigit || c = '+' || c = '-' || c = '.')

/-- `new URL(url)`: `none` models the thrown `TypeError`. -/
def parseURL (s : String) : Option URLRec :=
  match splitAtSub "://".data s.data with
  | none => none
  | some (sch, rest) =>
    if schemeOk sch then
      let hostport := rest.takeWhile (fun c => ¬(c = '/' ∨ c = '?' ∨ c = '#'))
      let afterHost := rest.dropWhile (fun c => ¬(c = '/' ∨ c = '?' ∨ c = '#'))
      let host := hostport.takeWhile (fun c => c ≠ ':')
      if host.isEmpty then none
      else
        let path := afterHost.takeWhile (fun c => ¬(c = '?' ∨ c = '#'))
        some ⟨strOf (sch.map lcChar), strOf (host.map lcChar),
              strOf (if path.isEmpty then ['/'] else path)⟩
    else none

/-- `pathname.split('/').filter(Boolean)`. -/
def pathSegments (pathname : String) : List String :=
  ((splitOnChar '/' pathname.data).map strOf).filter (fun s => s ≠ "")

/-! ## HTML scanners (the regex operations of the handler) -/

/-- The capture of `html.match(/<title[^>]*>(.*?)<\/title>/i)`: after the
closing `>` of the opening tag, the lazy dot (which does not cross line
terminators) runs until the first case-insensitive `</title>`. -/
def lazyDotUntilCI (pat : List Char) : List Char → Option (List Char)
  | [] => none
  | c :: rest =>
    if ciPrefixOf pat (c :: rest) then some []
    else if c = '\n' ∨ c = '\r' ∨ c.toNat = 0x2028 ∨ c.toNat = 0x2029 then none
    else
      match lazyDotUntilCI pat rest with
      | some cap => some (c :: cap)
      | none => none

/-- Leftmost match of `/<title[^>]*>(.*?)<\/title>/i`, returning the capture
group; a start where the pattern cannot complete is skipped, as the regex
engine moves on by one character. -/
def findTitleF : Nat → List Char → Option (List Char)
  | 0, _ => none
  | _ + 1, [] => none
  | fuel + 1, c :: rest =>
    if ciPrefixOf "<title".data (c :: rest) then
      let afterOpen := List.drop ("<title".length - 1) rest
      match afterOpen.dropWhile (fun c => c ≠ '>') with
      | '>' :: r2 =>
        match lazyDotUntilCI "</title>".data r2 with
        | some cap => some cap
        | none => findTitleF fuel rest
      | _ => findTitleF fuel rest
    else findTitleF fuel rest

/-- Global replace of `/<open[^>]*>[\s\S]*?<\/close>/gi` by the empty
string (used for `<script>` and `<style>` elements including contents);
an element without its closing tag stays, as the lazy any-character run
finds no end. -/
def removeElemF (tagOpen tagClose : List Char) : Nat → List Char → List Char
  | 0, l => l
  | _ + 1, [] => []
  | fuel + 1, c :: rest =>
    if ciPrefixOf tagOpen (c :: rest) then
      let afterOpen := List.drop (tagOpen.length - 1) rest
      match afterOpen.dropWhile (fun c => c ≠ '>') with
      | '>' :: r2 =>
        match dropThroughCI tagClose r2 with
        | some r3 => removeElemF tagOpen tagClose fuel r3
        | none => c :: removeElemF tagOpen tagClose fuel rest
      | _ => c :: removeElemF tagOpen tagClose fuel rest
    else c :: removeElemF tagOpen tagClose fuel rest

/-- `.replace(/<script[^>]*>[\s\S]*?<\/script>/gi, '')`. -/
def removeScripts (l : List Char) : List Char :=
  removeElemF "<script".data "</script>".data l.length l

/-- `.replace(/<style[^>]*>[\s\S]*?<\/style>/gi, '')`. -/
def removeStyles (l : List Char) : List Char :=
  removeElemF "<style".data "</style>".data l.length l

/-- `.replace(/<[^>]+>/g, ' ')`: each `<`, a nonempty run without `>`, and a
`>` collapse to one space; a `<` that heads no such run stays. -/
def stripTagsF : Nat → List Char → List Char
  | 0, l => l
  | _ + 1, [] => []
  | fuel + 1, c :: rest =>
    if c = '<' then
      let run := rest.takeWhile (fun c => c ≠ '>')
      match rest.dropWhile (fun c => c ≠ '>') with
      | '>' :: rest2 =>
        if run.isEmpty then c :: stripTagsF fuel rest
        else ' ' :: stripTagsF fuel rest2
      | _ => c :: stripTagsF fuel rest
    else c :: stripTagsF fuel rest

/-- Wrapper for `stripTagsF` with sufficient fuel. -/
def stripTags (l : List Char) : List Char := stripTagsF l.length l

/-- `.replace(/\s+/g, ' ')`: runs of JS whitespace become one space. -/
def collapseWsAux (prevSpace : Bool) : List Char → List Char
  | [] => []
  | c :: rest =>
    if jsIsSpace c then
      if prevSpace then collapseWsAux true rest
      else ' ' :: collapseWsAux true rest
    else c :: collapseWsAux false rest

/-- Whitespace collapsing, starting outside a run. -/
def collapseWs (l : List Char) : List Char := collapseWsAux false l

/-- Value parse after `charset=` in the meta regex: optional quote (taken
greedily, given back if the value would be empty), then a nonempty run of
characters outside `["'\s>]`. -/
def metaValueParse (l : List Char) : Option (List Char) :=
  let core := fun (m : List Char) =>
    let v := m.takeWhile (fun c => ¬(c = '"' ∨ c = '\x27' ∨ c = '>' ∨ jsIsSpace c))
    if v.isEmpty then none else some v
  match l with
  | '"' :: r => match core r with | some v => some v | none => core l
  | '\x27' :: r => match core r with | some v => some v | none => core l
  | _ => core l

/-- Completion of `/<meta[^>]+charset=["']?([^"'\s>]+)/i` after `<meta`:
the greedy `[^>]+` prefers the rightmost `charset=` occurrence (within the
`>`-free run, which must be nonempty) whose value part parses. -/
def metaInner (consumed : Nat) : List Char → Option (List Char)
  | [] => none
  | c :: rest =>
    if c = '>' then none
    else
      match metaInner (consumed + 1) rest with
      | some v => some v
      | none =>
        if consumed ≥ 1 ∧ ciPrefixOf "charset=".data (c :: rest) then
          metaValueParse (List.drop "charset=".length (c :: rest))
        else none

/-- Leftmost complete match of the meta-charset regex, returning the raw
captured value. -/
def extractMetaCharsetL : List Char → Option (List Char)
  | [] => none
  | c :: rest =>
    if ciPrefixOf "<meta".data (c :: rest) then
      match metaInner 0 (List.drop ("<meta".length - 1) rest) with
      | some v => some v
      | none => extractMetaCharsetL rest
    else extractMetaCharsetL rest

/-- `html.match(/<meta[^>]+charset=["']?([^"'\s>]+)/i)`, as a `String`. -/
def extractMetaCharset (html : String) : Option String :=
  (extractMetaCharsetL html.data).map strOf

/-- `contentType.match(/charset=([^;]+)/i)` with the `.trim()` the handler
applies to the capture. -/
def extractHeaderCharset : List Char → Option String
  | [] => none
  | c :: rest =>
    if ciPrefixOf "charset=".data (c :: rest) then
      let v := (List.drop ("charset=".length - 1) rest).takeWhile (fun c => c ≠ ';')
      if v.isEmpty then extractHeaderCharset rest else some (strOf (trimChars v))
    else extractHeaderCharset rest

/-! ## The execution environment

The pipeline's outward calls, passed in explicitly so the handler is a pure
function of the request and this environment. -/

/-- Raw response bytes (`response.arrayBuffer()`). -/
abbrev Bytes := List Nat

/-- The page fetch's response: `ok` is `response.ok` (status in 200–299),
`contentType` is `response.headers.get('content-type') || ''`. -/
structure HttpResponse where
  ok : Bool
  status : Nat
  contentType : String
  body : Bytes

/-- External effects of one `POST` call.
* `fetchResult`: `none` models a transport-level error thrown by `fetch`.
* `strictDecode cs b`: `new TextDecoder(cs, {fatal: true}).decode(b)`;
  `none` models the throw on an unknown label or invalid byte sequence.
  The label string is passed verbatim; label normalization (aliases, case)
  belongs to the oracle.
* `lossyUtf8 b`: `new TextDecoder('utf-8', {fatal: false}).decode(b)`,
  which never throws.
* `apiKey`: whether `process.env.OPENAI_API_KEY` is set.
* `openaiResult`: outcome of the provider call; `none` models a
  transport-level throw, `some (ok, summary)` a response with `ok` status
  and (when `ok`) `choices[0].message.content = summary`. -/
structure Env where
  fetchResult : Option HttpResponse
  strictDecode : String → Bytes → Option String
  lossyUtf8 : Bytes → String
  apiKey : Bool
  openaiResult : Option (Bool × String)

/-! ## Charset resolution -/

/-- `decoded.includes('�')`: the placeholder-character test. -/
def containsRepl (s : String) : Bool := s.data.contains '�'

/-- The fixed candidate list of `tryDecodeWithCharsets`. -/
def charsetsList : List String := ["utf-8", "shift_jis", "euc-jp", "iso-2022-jp"]

/-- `tryDecodeWithCharsets(buffer)`: first candidate whose strict decode
succeeds and contains no placeholder character wins; otherwise the lossy
UTF-8 decode. -/
def tryDecodeWithCharsets (env : Env) (buffer : Bytes) : String :=
  match charsetsList.findSome? (fun cs =>
      match env.strictDecode cs buffer with
      | some d => if containsRepl d then none else some d
      | none => none) with
  | some d => d
  | none => env.lossyUtf8 buffer

/-- The charset-resolution block of the handler: with a declared header
charset, a successful strict decode with it is accepted outright and a
failure falls back to `tryDecodeWithCharsets`; without one, the candidate
trial runs and then the meta-charset re-decode may replace its result. -/
def resolveCharset (env : Env) (contentType : String) (buffer : Bytes) : String :=
  match extractHeaderCharset contentType.data with
  | some detected =>
    match env.strictDecode detected buffer with
    | some d => d
    | none => tryDecodeWithCharsets env buffer
  | none =>
    let html := tryDecodeWithCharsets env buffer
    match extractMetaCharset html with
    | some raw =>
      let metaCharset := strOf (raw.data.map lcChar)
      if metaCharset ≠ "utf-8" ∧ ¬ containsRepl html then
        match env.strictDecode metaCharset buffer with
        | some reDecoded => if ¬ containsRepl reDecoded then reDecoded else html
        | none => html
      else html
    | none => html

/-! ## Content extraction -/

/-- `pageTitle`: first `<title>` capture, trimmed, else the hostname; entity
decoding is applied to the result either way. -/
def extractTitle (html hostname : String) : String :=
  let rawTitle :=
    match findTitleF html.data.length html.data with
    | some cap => strOf (trimChars cap)
    | none => hostname
  decodeHtmlEntities rawTitle

/-- `rawBodyText`: scripts and styles removed, tags stripped to spaces,
whitespace collapsed, trimmed, truncated to the first 3000 characters. -/
def rawBodyText (html : String) : String :=
  strOf (List.take 3000 (trimChars (collapseWs (stripTags
    (removeStyles (removeScripts html.data))))))

/-- `bodyText = decodeHtmlEntities(rawBodyText)`. -/
def bodyText (html : String) : String := decodeHtmlEntities (rawBodyText html)

/-! ## Result assembly -/

/-- The handler's outcome: a JSON error response with its status code, or a
`{title, content}` document. -/
inductive PostResult where
  | err (msg : String) (status : Nat)
  | ok (title content : String)
deriving DecidableEq

/-- The AI-summary content template. -/
def aiTemplate (pageTitle url summary : String) : String :=
  "# " ++ pageTitle ++ "\n\nURL: " ++ url ++ "\n\n## AI要約\n\n" ++ summary ++
  "\n\n[元のページを開く](" ++ url ++ ")"

/-- The excerpt-only content template (no AI summary available). -/
def excerptTemplate (pageTitle url body : String) : String :=
  "# " ++ pageTitle ++ "\n\nURL: " ++ url ++ "\n\n## 概要\n\n" ++
  strOf (List.take 500 body.data) ++ "...\n\n[元のページを開く](" ++ url ++ ")"

/-- The Slack branch of the fetch-failure fallback. -/
def slackNote (url pathname : String) : PostResult :=
  let lastSeg :=
    match (pathSegments pathname).getLast? with
    | some s => if s = "" then "メッセージ" else s
    | none => "メッセージ"
  .ok ("Slack - " ++ lastSeg)
    ("# Slack リンク\n\nURL: " ++ url ++
     "\n\n## 注意\nSlackのコンテンツはプライベートなため、直接アクセスして内容を確認してください。\n\n[Slackで開く](" ++
     url ++ ")")

/-- `parts.join('/')`. -/
def joinSlash : List String → String
  | [] => ""
  | [s] => s
  | s :: rest => s ++ "/" ++ joinSlash rest

/-- The GitHub branch of the fetch-failure fallback (two or more path
segments; `parts[1] || ''` is the empty string for a falsy second part). -/
def githubNote (url : String) (parts : List String) (p0 p1 : String) : PostResult :=
  .ok ("GitHub - " ++ joinSlash parts)
    ("# GitHub リンク\n\nURL: " ++ url ++ "\n\nリポジトリ: " ++ p0 ++ "/" ++
     (if p1 = "" then "" else p1) ++ "\n\n[GitHubで開く](" ++ url ++ ")")

/-- The default branch of the fetch-failure fallback. -/
def defaultNote (url hostname : String) : PostResult :=
  .ok hostname
    ("# " ++ hostname ++ "\n\nURL: " ++ url ++
     "\n\n## 内容\nこのURLの詳細な内容を取得できませんでした。直接アクセスしてください。\n\n[リンクを開く](" ++
     url ++ ")")

/-- The `catch (fetchError)` block: Slack marker first, then GitHub marker
(needing two or more path segments, else falling through), then the default
note. -/
def fallbackNote (url hostname pathname : String) : PostResult :=
  if strIncludes hostname "slack.com" then slackNote url pathname
  else if strIncludes hostname "github.com" then
    match pathSegments pathname with
    | p0 :: p1 :: rest => githubNote url (p0 :: p1 :: rest) p0 p1
    | _ => defaultNote url hostname
  else defaultNote url hostname

/-! ## The handler -/

/-- Result of one `POST` call plus instrumentation: whether the page fetch
was issued and whether the OpenAI endpoint was called. -/
structure PostTrace where
  result : PostResult
  didFetch : Bool
  didCallOpenAI : Bool
deriving DecidableEq

/-- The `POST(request)` handler for a request whose body parsed to the given
`url` string.  A transport error of either outward call lands in the
`catch (fetchError)` block, hence in `fallbackNote`. -/
def POST (env : Env) (url : String) : PostTrace :=
  if url = "" then ⟨.err "URLが指定されていません" 400, false, false⟩
  else
    match parseURL url with
    | none => ⟨.err "無効なURLです" 400, false, false⟩
    | some u =>
      match env.fetchResult with
      | none => ⟨fallbackNote url u.hostname u.pathname, true, false⟩
      | some resp =>
        if ¬ resp.ok then ⟨fallbackNote url u.hostname u.pathname, true, false⟩
        else
          let html := resolveCharset env resp.contentType resp.body
          let pageTitle := extractTitle html u.hostname
          let body := bodyText html
          if env.apiKey then
            match env.openaiResult with
            | none => ⟨fallbackNote url u.hostname u.pathname, true, true⟩
            | some (true, summary) =>
              ⟨.ok pageTitle (aiTemplate pageTitle url summary), true, true⟩
            | some (false, _) =>
              ⟨.ok pageTitle (excerptTemplate pageTitle url body), true, true⟩
          else ⟨.ok pageTitle (excerptTemplate pageTitle url body), true, false⟩

/-! ## Entity-encoded texts

A vocabulary of tokens for building entity-encoded strings: a literal
character, one of the entries of `entityMap`, a decimal or hexadecimal
numeric character reference, or an alphanumeric `&...;` token that is not a
known entity.  `renderTok` is the encoded form handed to the decoder,
`denoteTok` the text the token stands for. -/

inductive EntityTok where
  | lit (c : Char)
  | named (i : Fin 7)
  | dec (n : Nat)
  | hex (n : Nat)
  | unknown (run : List Char)

/-- Decimal digit characters of `n`, most significant first. -/
def decDigits (n : Nat) : List Char :=
  if n = 0 then ['0'] else ((Nat.digits 10 n).map Nat.digitChar).reverse

/-- Lowercase hexadecimal digit characters of `n`, most significant first. -/
def hexDigits (n : Nat) : List Char :=
  if n = 0 then ['0'] else ((Nat.digits 16 n).map Nat.digitChar).reverse

/-- Encoded form of a token. -/
def renderTok : EntityTok → List Char
  | .lit c => [c]
  | .named i => ((entityMap.get (Fin.cast (by decide) i)).1).data
  | .dec n => entityTok true (decDigits n)
  | .hex n => entityTok true ('x' :: hexDigits n)
  | .unknown run => entityTok false run

/-- Text the token stands for.  A named entity stands for its `entityMap`
value; an unknown token stands for itself (it passes through). -/
def denoteTok : EntityTok → List Char
  | .lit c => [c]
  | .named i => ((entityMap.get (Fin.cast (by decide) i)).2).data
  | .dec n => [Char.ofNat n]
  | .hex n => [Char.ofNat n]
  | .unknown run => entityTok false run

/-- Well-formedness: literal characters are not `&` (every ampersand of an
encoded text is itself encoded); numeric values are Unicode scalar values
below `0x10000` (so `fromCharCode` reproduces them); unknown tokens are
nonempty alphanumeric runs whose token is not a known entity. -/
def validTok : EntityTok → Prop
  | .lit c => c ≠ '&'
  | .named _ => True
  | .dec n => n < 65536 ∧ Nat.isValidChar n
  | .hex n => n < 65536 ∧ Nat.isValidChar n
  | .unknown run =>
    run ≠ [] ∧ run.all isAlnumAscii = true ∧
    strOf (entityTok false run) ∉ entityMap.map Prod.fst

/-- A token of the entity round-trip proper (no pass-through tokens). -/
def literalTok : EntityTok → Prop
  | .unknown _ => False
  | _ => True

/-- Concatenated encoded form. -/
def renderToks (ts : List EntityTok) : List Char := (ts.map renderTok).flatten

/-- Concatenated denoted text. -/
def denoteToks (ts : List EntityTok) : List Char := (ts.map denoteTok).flatten

/-! ## Concrete instances for witnesses and counterexamples -/

/-- An environment whose fetch fails with a transport error and whose
decoders refuse everything. -/
def envMin : Env := ⟨none, fun _ _ => none, fun _ => "", false, none⟩

/-- The scenario page: `<title>Hello</title>`, body text `World`. -/
def pageHtml : String := "<html><head><title>Hello</title></head><body>World</body></html>"

/-- A fetch of `pageHtml`: 200, no charset in the header, bytes decoding
strictly as UTF-8 to `pageHtml` (they are its UTF-8 encoding, all ASCII, so
the legacy decoders would agree; the oracle only answers for utf-8), no
summarization credential. -/
def envPage : Env :=
  ⟨some ⟨true, 200, "", [1]⟩,
   fun cs _ => if cs = "utf-8" then some pageHtml else none,
   fun _ => pageHtml, false, none⟩

/-- `envPage` with a credential present and a provider transport error. -/
def envPageAI : Env :=
  ⟨some ⟨true, 200, "", [1]⟩,
   fun cs _ => if cs = "utf-8" then some pageHtml else none,
   fun _ => pageHtml, true, none⟩

/-- `envPage` with a credential present and a non-2xx provider response. -/
def envPageAIBad : Env :=
  ⟨some ⟨true, 200, "", [1]⟩,
   fun cs _ => if cs = "utf-8" then some pageHtml else none,
   fun _ => pageHtml, true, some (false, "")⟩

/-- A page that self-declares `shift_jis` in a meta tag.  The bytes are the
UTF-8 encoding of `metaHtmlU8` (ASCII plus one non-ASCII character), which
a real `shift_jis` decoder also accepts, reading the non-ASCII bytes as
katakana — modelled by `metaHtmlSJ`. -/
def metaHtmlU8 : String := "<meta charset=shift_jis>é"

/-- The `shift_jis` reading of the same bytes. -/
def metaHtmlSJ : String := "<meta charset=shift_jis>テ"

/-- Environment for the meta-charset scenarios; the Content-Type value is
passed separately to `resolveCharset`. -/
def envMeta : Env :=
  ⟨some ⟨true, 200, "text/html; charset=utf-8", [60]⟩,
   fun cs _ =>
     if cs = "utf-8" then some metaHtmlU8
     else if cs = "shift_jis" then some metaHtmlSJ else none,
   fun _ => metaHtmlU8, false, none⟩

/-- Strict UTF-8 reading of the bytes `61 (EF BF BD) (EF BF BD) 62`: the
two middle triples are the (valid) UTF-8 encoding of the placeholder
character itself, so the strict decode succeeds yet contains `�`. -/
def dirtyU8 : String := "a��b"

/-- `shift_jis` reading of the same bytes (`EF BF` a level-2 kanji, `BD`
half-width katakana, twice) — placeholder-free; the exact glyphs are
immaterial, only placeholder-freeness and distinctness matter. -/
def cleanSJ : String := "a判ｽ判ｽb"

/-- `euc-jp` reading of the same bytes (three two-byte codes `EF BF`,
`BD EF`, `BF BD`, all with lead and trail in `A1`–`FE`) —
placeholder-free. -/
def cleanEUC : String := "a鮑竈麓b"

/-- Environment in which the declared `utf-8` strict decode succeeds but
contains a placeholder character, while `shift_jis` and `euc-jp` decode
cleanly. -/
def envDirty : Env :=
  ⟨some ⟨true, 200, "text/html; charset=utf-8",
        [0x61, 0xef, 0xbf, 0xbd, 0xef, 0xbf, 0xbd, 0x62]⟩,
   fun cs _ =>
     if cs = "utf-8" then some dirtyU8
     else if cs = "shift_jis" then some cleanSJ
     else if cs = "euc-jp" then some cleanEUC else none,
   fun _ => dirtyU8, false, none⟩

/-- Tokens whose denoted text equals their rendering: literal characters
and unmatched (`unknown`) entity tokens — text built only of these passes
the decoder unchanged. -/
def passTok : EntityTok → Prop
  | .lit _ => True
  | .unknown _ => True
  | _ => False

instance : DecidablePred validTok := fun t =>
  match t with
  | .lit c => inferInstanceAs (Decidable (c ≠ '&'))
  | .named _ => inferInstanceAs (Decidable True)
  | .dec n => inferInstanceAs (Decidable (n < 65536 ∧ Nat.isValidChar n))
  | .hex n => inferInstanceAs (Decidable (n < 65536 ∧ Nat.isValidChar n))
  | .unknown run =>
    inferInstanceAs (Decidable (run ≠ [] ∧ run.all isAlnumAscii = true ∧
      strOf (entityTok false run) ∉ entityMap.map Prod.fst))

instance : DecidablePred literalTok := fun t =>
  match t with
  | .lit _ => inferInstanceAs (Decidable True)
  | .named _ => inferInstanceAs (Decidable True)
  | .dec _ => inferInstanceAs (Decidable True)
  | .hex _ => inferInstanceAs (Decidable True)
  | .unknown _ => inferInstanceAs (Decidable False)

instance : DecidablePred passTok := fun t =>
  match t with
  | .lit _ => inferInstanceAs (Decidable True)
  | .named _ => inferInstanceAs (Decidable False)
  | .dec _ => inferInstanceAs (Decidable False)
  | .hex _ => inferInstanceAs (Decidable False)
  | .unknown _ => inferInstanceAs (Decidable True)

/-- The scenario URL of the C5/C10 setting. -/
def scenarioURL : String := "https://example.com/page"

/-- The content the excerpt template produces for the scenario page. -/
def scenarioContent : String :=
  "# Hello\n\nURL: https://example.com/page\n\n## 概要\n\nHello World...\n\n[元のページを開く](https://example.com/page)"

/-- The bytes of the dirty-declared-decode scenario (see `envDirty`). -/
def dirtyBytes : Bytes := [0x61, 0xef, 0xbf, 0xbd, 0xef, 0xbf, 0xbd, 0x62]

/-- The Slack note content for the hostname that contains both markers. -/
def slackContent9 : String :=
  "# Slack リンク\n\nURL: https://github.com.slack.com/owner/repo\n\n## 注意\nSlackのコンテンツはプライベートなため、直接アクセスして内容を確認してください。\n\n[Slackで開く](https://github.com.slack.com/owner/repo)"

/-! ## Helper lemmas: lists and scans -/

theorem strOf_data (l : List Char) : (strOf l).data = l := rfl

theorem takeWhile_all_append {p : Char → Bool} {l1 : List Char} (c : Char)
    (l2 : List Char) (h1 : l1.all p = true) (h2 : p c = false) :
    (l1 ++ c :: l2).takeWhile p = l1 := by
  induction l1 with
  | nil => simp [List.takeWhile_cons, h2]
  | cons a t ih =>
    simp only [List.all_cons, Bool.and_eq_true] at h1
    simp [List.takeWhile_cons, h1.1, ih h1.2]

theorem dropWhile_all_append {p : Char → Bool} {l1 : List Char} (c : Char)
    (l2 : List Char) (h1 : l1.all p = true) (h2 : p c = false) :
    (l1 ++ c :: l2).dropWhile p = c :: l2 := by
  induction l1 with
  | nil => simp [List.dropWhile_cons, h2]
  | cons a t ih =>
    simp only [List.all_cons, Bool.and_eq_true] at h1
    simp [List.dropWhile_cons, h1.1, ih h1.2]


theorem matchRun_build (run r3 : List Char) (hne : run ≠ [])
    (hall : run.all isAlnumAscii = true) :
    matchRun (run ++ ';' :: r3) = some (run, r3) := by
  have hsemi : isAlnumAscii ';' = false := by decide
  simp only [matchRun, takeWhile_all_append _ _ hall hsemi,
    dropWhile_all_append _ _ hall hsemi]
  simp [hne]

theorem matchRun_some {r1 run r3 : List Char} (h : matchRun r1 = some (run, r3)) :
    r1 = run ++ ';' :: r3 ∧ run ≠ [] ∧ run.all isAlnumAscii = true := by
  simp only [matchRun] at h
  split at h
  · exact absurd h (by simp)
  · rename_i hne
    split at h
    · rename_i r3' heq
      injection h with h'
      obtain ⟨h1, h2⟩ := Prod.mk.injEq .. ▸ h'
      subst h1
      subst h2
      refine ⟨?_, by simpa using hne, ?_⟩
      · conv_lhs => rw [← List.takeWhile_append_dropWhile (p := isAlnumAscii) (l := r1)]
        rw [heq]
      · rw [List.all_eq_true]
        intro x hx
        exact List.mem_takeWhile_imp hx
    · exact absurd h (by simp)

theorem matchEntity_hash_eq (r1 : List Char) :
    matchEntity ('#' :: r1) =
      match matchRun r1 with
      | some (run, r3) => some (true, run, r3)
      | none => none := rfl

theorem matchEntity_not_hash (rest : List Char) (h : rest.head? ≠ some '#') :
    matchEntity rest =
      match matchRun rest with
      | some (run, r3) => some (false, run, r3)
      | none => none := by
  cases rest with
  | nil => rfl
  | cons a t =>
    have ha : a ≠ '#' := by simpa using h
    unfold matchEntity
    split
    · rename_i heq
      exact absurd heq (by simp [ha])
    · rfl

theorem matchEntity_some {rest : List Char} {hash : Bool} {run r3 : List Char}
    (h : matchEntity rest = some (hash, run, r3)) :
    rest = (if hash then ['#'] else []) ++ run ++ ';' :: r3 ∧
    run ≠ [] ∧ run.all isAlnumAscii = true := by
  cases rest with
  | nil => exact absurd h (by simp [matchEntity, matchRun])
  | cons a t =>
    by_cases ha : a = '#'
    · subst ha
      rw [matchEntity_hash_eq] at h
      cases hm : matchRun t with
      | none => rw [hm] at h; exact absurd h (by simp)
      | some pr =>
        obtain ⟨run', r3'⟩ := pr
        rw [hm] at h
        simp only [Option.some.injEq, Prod.mk.injEq] at h
        obtain ⟨hh, hr, h3⟩ := h
        subst hr h3
        obtain ⟨ht, hne, hall⟩ := matchRun_some hm
        subst hh
        refine ⟨by simp [ht], hne, hall⟩
    · have hh : (a :: t).head? ≠ some '#' := by simp [ha]
      rw [matchEntity_not_hash _ hh] at h
      cases hm : matchRun (a :: t) with
      | none => rw [hm] at h; exact absurd h (by simp)
      | some pr =>
        obtain ⟨run', r3'⟩ := pr
        rw [hm] at h
        simp only [Option.some.injEq, Prod.mk.injEq] at h
        obtain ⟨hh2, hr, h3⟩ := h
        subst hr h3
        obtain ⟨ht, hne, hall⟩ := matchRun_some hm
        subst hh2
        refine ⟨by simp [ht], hne, hall⟩

theorem matchEntity_build_hash (run r3 : List Char) (hne : run ≠ [])
    (hall : run.all isAlnumAscii = true) :
    matchEntity ('#' :: (run ++ ';' :: r3)) = some (true, run, r3) := by
  rw [matchEntity_hash_eq, matchRun_build run r3 hne hall]

theorem matchEntity_build_nohash (run r3 : List Char) (hne : run ≠ [])
    (hall : run.all isAlnumAscii = true) :
    matchEntity (run ++ ';' :: r3) = some (false, run, r3) := by
  have hh : (run ++ ';' :: r3).head? ≠ some '#' := by
    rcases run with _ | ⟨a, t⟩
    · exact absurd rfl hne
    · have ha : isAlnumAscii a = true := by
        simp only [List.all_cons, Bool.and_eq_true] at hall
        exact hall.1
      have : a ≠ '#' := by intro hc; rw [hc] at ha; exact absurd ha (by decide)
      simpa using this
  rw [matchEntity_not_hash _ hh, matchRun_build run r3 hne hall]

theorem scanF_nil (fuel : Nat) : scanEntitiesF fuel [] = [] := by
  cases fuel <;> rfl

theorem scanF_cons_amp (fuel : Nat) (rest : List Char) :
    scanEntitiesF (fuel + 1) ('&' :: rest) =
      match matchEntity rest with
      | some (hash, run, r3) =>
        (resolveEntity (strOf (entityTok hash run))).data ++ scanEntitiesF fuel r3
      | none => '&' :: scanEntitiesF fuel rest := rfl

theorem scanF_cons_other (fuel : Nat) (c : Char) (rest : List Char) (hc : c ≠ '&') :
    scanEntitiesF (fuel + 1) (c :: rest) = c :: scanEntitiesF fuel rest := by
  simp [scanEntitiesF, hc]

theorem entityTok_ne_nil (hash : Bool) (run : List Char) : entityTok hash run ≠ [] := by
  simp [entityTok]

theorem entityTok_length (hash : Bool) (run : List Char) :
    (entityTok hash run).length = (if hash then 2 else 1) + run.length + 1 := by
  cases hash <;> simp [entityTok] <;> omega

theorem resolveEntity_length (s : String) (h : s.data ≠ []) :
    (resolveEntity s).data.length ≤ s.data.length := by
  have hpos : 1 ≤ s.data.length := List.length_pos.mpr h
  unfold resolveEntity
  cases hf : entityMap.find? (fun p => p.1 == s) with
  | some p =>
    have hmem := List.mem_of_find?_eq_some hf
    have hps : p.1 = s := by simpa using List.find?_some hf
    rw [← hps] at hpos ⊢
    exact (by decide : ∀ q ∈ entityMap, q.2.data.length ≤ q.1.data.length) p hmem
  | none =>
    split
    · rename_i x p heq
      exact absurd heq (by simp)
    · by_cases hp : ("&#".data.isPrefixOf s.data) = true
      · rw [if_pos hp]
        split <;> simpa [jsFromCharCode, strOf] using hpos
      · rw [if_neg hp]

theorem scanEntitiesF_length (fuel : Nat) :
    ∀ l : List Char, (scanEntitiesF fuel l).length ≤ l.length := by
  induction fuel with
  | zero => intro l; simp [scanEntitiesF]
  | succ f ih =>
    intro l
    cases l with
    | nil => simp [scanF_nil]
    | cons c rest =>
      by_cases hc : c = '&'
      · subst hc
        rw [scanF_cons_amp]
        cases hm : matchEntity rest with
        | none => simpa using ih rest
        | some trip =>
          obtain ⟨hash, run, r3⟩ := trip
          obtain ⟨hrest, hne, hall⟩ := matchEntity_some hm
          have h1 : (resolveEntity (strOf (entityTok hash run))).data.length ≤
              (entityTok hash run).length :=
            resolveEntity_length _ (by simpa [strOf] using entityTok_ne_nil hash run)
          have h2 := ih r3
          have h3 : rest.length + 1 = (entityTok hash run).length + r3.length := by
            subst hrest
            rw [entityTok_length]
            cases hash <;> simp <;> omega
          simp only [List.length_append, List.length_cons]
          omega
      · rw [scanF_cons_other _ _ _ hc]
        simpa using ih rest

theorem digitChar_alnum {d : Nat} (h : d < 16) : isAlnumAscii (Nat.digitChar d) = true := by
  interval_cases d <;> decide

theorem digitValB10_digitChar {d : Nat} (h : d < 10) :
    digitValB 10 (Nat.digitChar d) = some d := by
  interval_cases d <;> decide

theorem digitValB16_digitChar {d : Nat} (h : d < 16) :
    digitValB 16 (Nat.digitChar d) = some d := by
  interval_cases d <;> decide

theorem digitChar_ne_x {d : Nat} (h : d < 16) : Nat.digitChar d ≠ 'x' := by
  interval_cases d <;> decide

theorem digitChar_ne_X {d : Nat} (h : d < 16) : Nat.digitChar d ≠ 'X' := by
  interval_cases d <;> decide

theorem takeWhile_eq_self {p : Char → Bool} :
    ∀ {l : List Char}, l.all p = true → l.takeWhile p = l := by
  intro l
  induction l with
  | nil => intro _; rfl
  | cons a t ih =>
    intro h
    simp only [List.all_cons, Bool.and_eq_true] at h
    simp [List.takeWhile_cons, h.1, ih h.2]

theorem foldl_horner (b : Nat)
    (hbv : ∀ d, d < b → digitValB b (Nat.digitChar d) = some d) :
    ∀ ds : List Nat, (∀ d ∈ ds, d < b) →
      ((ds.map Nat.digitChar).reverse).foldl
        (fun a c => a * b + (digitValB b c).getD 0) 0 = Nat.ofDigits b ds := by
  intro ds
  induction ds with
  | nil => simp [Nat.ofDigits_nil]
  | cons d tl ih =>
    intro hlt
    have hd : d < b := hlt d (List.mem_cons_self d tl)
    simp only [List.map_cons, List.reverse_cons]
    rw [List.foldl_append, ih (fun x hx => hlt x (List.mem_cons_of_mem _ hx))]
    simp only [List.foldl_cons, List.foldl_nil, hbv d hd, Option.getD_some,
      Nat.ofDigits_cons]
    ring

theorem decDigits_ne_nil (n : Nat) : decDigits n ≠ [] := by
  unfold decDigits
  split
  · simp
  · rename_i hn
    intro hc
    exact (Nat.digits_ne_nil_iff_ne_zero.mpr hn) (by simpa using hc)

theorem hexDigits_ne_nil (n : Nat) : hexDigits n ≠ [] := by
  unfold hexDigits
  split
  · simp
  · rename_i hn
    intro hc
    exact (Nat.digits_ne_nil_iff_ne_zero.mpr hn) (by simpa using hc)

theorem decDigits_all_alnum (n : Nat) : (decDigits n).all isAlnumAscii = true := by
  rw [List.all_eq_true]
  intro c hc
  unfold decDigits at hc
  split at hc
  · simp only [List.mem_singleton] at hc
    subst hc; decide
  · rw [List.mem_reverse, List.mem_map] at hc
    obtain ⟨d, hd, rfl⟩ := hc
    exact digitChar_alnum (lt_trans (Nat.digits_lt_base (by norm_num) hd) (by norm_num))

theorem hexDigits_all_alnum (n : Nat) : (hexDigits n).all isAlnumAscii = true := by
  rw [List.all_eq_true]
  intro c hc
  unfold hexDigits at hc
  split at hc
  · simp only [List.mem_singleton] at hc
    subst hc; decide
  · rw [List.mem_reverse, List.mem_map] at hc
    obtain ⟨d, hd, rfl⟩ := hc
    exact digitChar_alnum (Nat.digits_lt_base (by norm_num) hd)

theorem parseDigitsCore_decDigits (n : Nat) : parseDigitsCore 10 (decDigits n) = some n := by
  by_cases hn : n = 0
  · subst hn; decide
  · unfold decDigits
    rw [if_neg hn]
    have hlt : ∀ d ∈ Nat.digits 10 n, d < 10 :=
      fun d hd => Nat.digits_lt_base (by norm_num) hd
    have hall : (((Nat.digits 10 n).map Nat.digitChar).reverse).all
        (fun c => (digitValB 10 c).isSome) = true := by
      rw [List.all_eq_true]
      intro c hc
      rw [List.mem_reverse, List.mem_map] at hc
      obtain ⟨d, hd, rfl⟩ := hc
      rw [digitValB10_digitChar (hlt d hd)]
      rfl
    unfold parseDigitsCore
    rw [takeWhile_eq_self hall]
    rw [if_neg (by
      simp only [List.isEmpty_eq_true]
      intro hc
      exact (Nat.digits_ne_nil_iff_ne_zero.mpr hn) (by simpa using hc))]
    rw [foldl_horner 10 (fun d hd => digitValB10_digitChar hd) _ hlt,
      Nat.ofDigits_digits]

theorem parseDigitsCore_hexDigits (n : Nat) : parseDigitsCore 16 (hexDigits n) = some n := by
  by_cases hn : n = 0
  · subst hn; decide
  · unfold hexDigits
    rw [if_neg hn]
    have hlt : ∀ d ∈ Nat.digits 16 n, d < 16 :=
      fun d hd => Nat.digits_lt_base (by norm_num) hd
    have hall : (((Nat.digits 16 n).map Nat.digitChar).reverse).all
        (fun c => (digitValB 16 c).isSome) = true := by
      rw [List.all_eq_true]
      intro c hc
      rw [List.mem_reverse, List.mem_map] at hc
      obtain ⟨d, hd, rfl⟩ := hc
      rw [digitValB16_digitChar (hlt d hd)]
      rfl
    unfold parseDigitsCore
    rw [takeWhile_eq_self hall]
    rw [if_neg (by
      simp only [List.isEmpty_eq_true]
      intro hc
      exact (Nat.digits_ne_nil_iff_ne_zero.mpr hn) (by simpa using hc))]
    rw [foldl_horner 16 (fun d hd => digitValB16_digitChar hd) _ hlt,
      Nat.ofDigits_digits]

theorem x_not_mem_hexDigits (n : Nat) : 'x' ∉ hexDigits n := by
  unfold hexDigits
  split
  · decide
  · intro hc
    rw [List.mem_reverse, List.mem_map] at hc
    obtain ⟨d, hd, heq⟩ := hc
    exact digitChar_ne_x (Nat.digits_lt_base (by norm_num) hd) heq

theorem capX_not_mem_hexDigits (n : Nat) : 'X' ∉ hexDigits n := by
  unfold hexDigits
  split
  · decide
  · intro hc
    rw [List.mem_reverse, List.mem_map] at hc
    obtain ⟨d, hd, heq⟩ := hc
    exact digitChar_ne_X (Nat.digits_lt_base (by norm_num) hd) heq

theorem jsParseInt_decDigits (n : Nat) : jsParseInt (decDigits n) 10 = some n := by
  unfold jsParseInt
  rw [if_neg (by norm_num)]
  exact parseDigitsCore_decDigits n

theorem jsParseInt_hexDigits (n : Nat) : jsParseInt (hexDigits n) 16 = some n := by
  unfold jsParseInt
  rw [if_pos rfl]
  split
  · rename_i r heq
    exact absurd (by rw [heq]; simp : 'x' ∈ hexDigits n) (x_not_mem_hexDigits n)
  · rename_i r heq
    exact absurd (by rw [heq]; simp : 'X' ∈ hexDigits n) (capX_not_mem_hexDigits n)
  · exact parseDigitsCore_hexDigits n

theorem x_not_mem_decDigits (n : Nat) : 'x' ∉ decDigits n := by
  unfold decDigits
  split
  · decide
  · intro hc
    rw [List.mem_reverse, List.mem_map] at hc
    obtain ⟨d, hd, heq⟩ := hc
    exact digitChar_ne_x
      (lt_trans (Nat.digits_lt_base (by norm_num) hd) (by norm_num)) heq

theorem find?_entityMap_eq_none {s : String} (h : ∀ p ∈ entityMap, p.1 ≠ s) :
    entityMap.find? (fun p => p.1 == s) = none := by
  rw [List.find?_eq_none]
  intro p hp
  simpa using h p hp

theorem decDigits_39 : decDigits 39 = ['3', '9'] := by
  unfold decDigits
  norm_num
  decide

theorem entityTok_hash_data (run : List Char) :
    entityTok true run = '&' :: '#' :: (run ++ [';']) := by
  simp [entityTok]

theorem entityTok_nohash_data (run : List Char) :
    entityTok false run = '&' :: (run ++ [';']) := by
  simp [entityTok]

theorem dec_tok_ne_key {n : Nat} (hn : n ≠ 39) :
    ∀ p ∈ entityMap, p.1 ≠ strOf (entityTok true (decDigits n)) := by
  intro p hp heq
  have hdata := congrArg String.data heq
  rw [strOf_data, entityTok_hash_data] at hdata
  fin_cases hp <;> simp_all
  have hcat : decDigits n ++ [';'] = ['3', '9'] ++ [';'] := by
    rw [← hdata]; rfl
  have hdec : decDigits n = ['3', '9'] := List.append_cancel_right hcat
  have h1 : (some n : Option Nat) = parseDigitsCore 10 ['3', '9'] := by
    rw [← parseDigitsCore_decDigits n, hdec]
  have h2 : parseDigitsCore 10 ['3', '9'] = some 39 := by decide
  rw [h2] at h1
  exact hn (by simpa using h1)

theorem resolveEntity_of_find_none {s : String}
    (hf : entityMap.find? (fun p => p.1 == s) = none) :
    resolveEntity s =
      if List.isPrefixOf "&#".data s.data then
        match (s.data.drop 2).dropLast with
        | 'x' :: hx => jsFromCharCode (jsParseInt hx 16)
        | num => jsFromCharCode (jsParseInt num 10)
      else s := by
  unfold resolveEntity
  rw [hf]

theorem resolveEntity_named (i : Fin 7) :
    resolveEntity (strOf (renderTok (.named i))) = strOf (denoteTok (.named i)) := by
  fin_cases i <;> decide

theorem resolveEntity_dec {n : Nat} (h : n < 65536) :
    resolveEntity (strOf (entityTok true (decDigits n))) = strOf [Char.ofNat n] := by
  by_cases h39 : n = 39
  · subst h39
    rw [show entityTok true (decDigits 39) = "&#39;".data by rw [decDigits_39]; rfl]
    decide
  · rw [resolveEntity_of_find_none (find?_entityMap_eq_none (dec_tok_ne_key h39))]
    rw [if_pos (by rw [strOf_data, entityTok_hash_data]; simp [List.isPrefixOf])]
    have hnum : (((strOf (entityTok true (decDigits n))).data.drop 2)).dropLast
        = decDigits n := by
      rw [strOf_data, entityTok_hash_data]
      simp only [List.drop]
      exact List.dropLast_concat ..
    rw [hnum]
    split
    · rename_i hx heq
      exact absurd (by rw [heq]; simp : 'x' ∈ decDigits n) (x_not_mem_decDigits n)
    · rw [jsParseInt_decDigits]
      simp [jsFromCharCode, Nat.mod_eq_of_lt h]

theorem hex_tok_ne_key (n : Nat) :
    ∀ p ∈ entityMap, p.1 ≠ strOf (entityTok true ('x' :: hexDigits n)) := by
  intro p hp heq
  have hdata := congrArg String.data heq
  rw [strOf_data, entityTok_hash_data] at hdata
  fin_cases hp <;> simp_all

theorem resolveEntity_hex {n : Nat} (h : n < 65536) :
    resolveEntity (strOf (entityTok true ('x' :: hexDigits n))) = strOf [Char.ofNat n] := by
  rw [resolveEntity_of_find_none (find?_entityMap_eq_none (hex_tok_ne_key n))]
  rw [if_pos (by rw [strOf_data, entityTok_hash_data]; simp [List.isPrefixOf])]
  have hnum : (((strOf (entityTok true ('x' :: hexDigits n))).data.drop 2)).dropLast
      = 'x' :: hexDigits n := by
    rw [strOf_data, entityTok_hash_data]
    simp only [List.drop]
    exact List.dropLast_concat ..
  rw [hnum]
  show jsFromCharCode (jsParseInt (hexDigits n) 16) = strOf [Char.ofNat n]
  rw [jsParseInt_hexDigits]
  simp [jsFromCharCode, Nat.mod_eq_of_lt h]

theorem resolveEntity_unknown {run : List Char} (hne : run ≠ [])
    (hall : run.all isAlnumAscii = true)
    (hkey : strOf (entityTok false run) ∉ entityMap.map Prod.fst) :
    resolveEntity (strOf (entityTok false run)) = strOf (entityTok false run) := by
  rw [resolveEntity_of_find_none (find?_entityMap_eq_none (by
    intro p hp hpe
    exact hkey (hpe ▸ List.mem_map_of_mem Prod.fst hp)))]
  rw [if_neg (by
    rw [strOf_data, entityTok_nohash_data]
    rcases run with _ | ⟨a, t⟩
    · exact absurd rfl hne
    · have ha : isAlnumAscii a = true := by
        simp only [List.all_cons, Bool.and_eq_true] at hall
        exact hall.1
      have hne2 : ¬('#' = a) := fun hc => absurd ha (by rw [← hc]; decide)
      simp [List.isPrefixOf, hne2])]

theorem entityTok_append (hash : Bool) (run R : List Char) :
    entityTok hash run ++ R = '&' :: ((if hash then '#' :: run else run) ++ (';' :: R)) := by
  simp [entityTok]

theorem scanF_entity_step (hash : Bool) (run R : List Char) (f : Nat)
    (hne : run ≠ []) (hall : run.all isAlnumAscii = true) :
    scanEntitiesF (f + 1) (entityTok hash run ++ R)
      = (resolveEntity (strOf (entityTok hash run))).data ++ scanEntitiesF f R := by
  cases hash
  · rw [show entityTok false run ++ R = '&' :: (run ++ ';' :: R) by simp [entityTok]]
    rw [scanF_cons_amp, matchEntity_build_nohash run R hne hall]
  · rw [show entityTok true run ++ R = '&' :: ('#' :: (run ++ ';' :: R)) by simp [entityTok]]
    rw [scanF_cons_amp, matchEntity_build_hash run R hne hall]

theorem resolveEntity_entityMap : ∀ p ∈ entityMap, resolveEntity p.1 = p.2 := by decide

theorem entityMap_key_ne_nil : ∀ p ∈ entityMap, p.1.data ≠ [] := by decide

theorem renderTok_ne_nil (t : EntityTok) : renderTok t ≠ [] := by
  cases t with
  | lit c => simp [renderTok]
  | named i =>
    exact entityMap_key_ne_nil _ (entityMap.get_mem ..)
  | dec n => simp [renderTok, entityTok]
  | hex n => simp [renderTok, entityTok]
  | unknown run => simp [renderTok, entityTok]

theorem namedTok_shape (i : Fin 7) :
    ∃ hash run, ((entityMap.get (Fin.cast (by decide) i)).1).data = entityTok hash run ∧
      run ≠ [] ∧ run.all isAlnumAscii = true := by
  fin_cases i
  · exact ⟨false, ['a', 'm', 'p'], rfl, by decide, by decide⟩
  · exact ⟨false, ['l', 't'], rfl, by decide, by decide⟩
  · exact ⟨false, ['g', 't'], rfl, by decide, by decide⟩
  · exact ⟨false, ['q', 'u', 'o', 't'], rfl, by decide, by decide⟩
  · exact ⟨true, ['3', '9'], rfl, by decide, by decide⟩
  · exact ⟨false, ['a', 'p', 'o', 's'], rfl, by decide, by decide⟩
  · exact ⟨false, ['n', 'b', 's', 'p'], rfl, by decide, by decide⟩

theorem scan_render (ts : List EntityTok) (hv : ∀ t ∈ ts, validTok t) :
    ∀ fuel, (renderToks ts).length ≤ fuel →
      scanEntitiesF fuel (renderToks ts) = denoteToks ts := by
  induction ts with
  | nil =>
    intro fuel _
    simp [renderToks, denoteToks, scanF_nil]
  | cons t ts ih =>
    intro fuel hfuel
    have hvt : validTok t := hv t (List.mem_cons_self ..)
    have hvts : ∀ x ∈ ts, validTok x := fun x hx => hv x (List.mem_cons_of_mem _ hx)
    have hsplit : renderToks (t :: ts) = renderTok t ++ renderToks ts := by
      simp [renderToks]
    have hdsplit : denoteToks (t :: ts) = denoteTok t ++ denoteToks ts := by
      simp [denoteToks]
    have hrlen : 1 ≤ (renderTok t).length := by
      rcases hr : renderTok t with _ | _
      · exact absurd hr (renderTok_ne_nil t)
      · simp
    rw [hsplit] at hfuel ⊢
    rw [List.length_append] at hfuel
    obtain ⟨f, rfl⟩ : ∃ f, fuel = f + 1 := by
      cases fuel with
      | zero => omega
      | succ f => exact ⟨f, rfl⟩
    rw [hdsplit]
    cases t with
    | lit c =>
      have hc : c ≠ '&' := hvt
      rw [show renderTok (.lit c) ++ renderToks ts = c :: renderToks ts from rfl]
      rw [scanF_cons_other _ _ _ hc]
      rw [ih hvts f (by simp only [renderTok, List.length_cons] at hfuel; omega)]
      rfl
    | named i =>
      obtain ⟨hash, run, hkeq, hne, hall⟩ := namedTok_shape i
      have hrw : renderTok (.named i) = entityTok hash run := hkeq
      rw [hrw] at hfuel ⊢
      rw [scanF_entity_step hash run _ f hne hall]
      have hres : resolveEntity (strOf (entityTok hash run)) =
          (entityMap.get (Fin.cast (by decide) i)).2 := by
        rw [← hkeq]
        exact resolveEntity_entityMap _ (entityMap.get_mem ..)
      rw [hres]
      rw [ih hvts f (by
        have := entityTok_length hash run
        omega)]
      rfl
    | dec n =>
      obtain ⟨hlt, hval⟩ := hvt
      rw [show renderTok (.dec n) = entityTok true (decDigits n) from rfl] at hfuel ⊢
      rw [scanF_entity_step true _ _ f (decDigits_ne_nil n) (decDigits_all_alnum n)]
      rw [resolveEntity_dec hlt]
      rw [ih hvts f (by
        have := entityTok_length true (decDigits n)
        omega)]
      rfl
    | hex n =>
      obtain ⟨hlt, hval⟩ := hvt
      have hallx : ('x' :: hexDigits n).all isAlnumAscii = true := by
        simp only [List.all_cons, Bool.and_eq_true]
        exact ⟨by decide, hexDigits_all_alnum n⟩
      rw [show renderTok (.hex n) = entityTok true ('x' :: hexDigits n) from rfl] at hfuel ⊢
      rw [scanF_entity_step true _ _ f (by simp) hallx]
      rw [resolveEntity_hex hlt]
      rw [ih hvts f (by
        have := entityTok_length true ('x' :: hexDigits n)
        omega)]
      rfl
    | unknown run =>
      obtain ⟨hne, hall, hkey⟩ := hvt
      rw [show renderTok (.unknown run) = entityTok false run from rfl] at hfuel ⊢
      rw [scanF_entity_step false _ _ f hne hall]
      rw [resolveEntity_unknown hne hall hkey]
      rw [ih hvts f (by
        have := entityTok_length false run
        omega)]
      rfl


/-! ## Claim theorems -/

/-- C8: for every fetched HTML document, the extracted body excerpt is at
most 3000 characters long both immediately after truncation (`rawBodyText`)
and after the entity-decoding stage (`bodyText`), and the decoding stage is
applied to the truncated text (truncation happens first). -/
theorem c8_body_excerpt_bounded (html : String) :
    (rawBodyText html).data.length ≤ 3000 ∧
    (bodyText html).data.length ≤ 3000 ∧
    bodyText html = decodeHtmlEntities (rawBodyText html) := by
  have h1 : (rawBodyText html).data.length ≤ 3000 := by
    unfold rawBodyText
    rw [strOf_data]
    exact List.length_take_le ..
  refine ⟨h1, ?_, rfl⟩
  unfold bodyText decodeHtmlEntities
  rw [strOf_data]
  exact le_trans (scanEntitiesF_length _ _) h1

/-- C6 counterexample: the decoder does not recover the original literal
text for two valid encodings — `&nbsp;` (which denotes U+00A0) decodes to a
plain space, and the valid numeric reference `&#128512;` (U+1F600, an
astral-plane character) is truncated modulo 2^16 by `fromCharCode`. -/
theorem c6_counterexample :
    decodeHtmlEntities "&nbsp;" ≠ " " ∧
    decodeHtmlEntities "&#128512;" ≠ "😀" := by
  constructor <;> decide

/-- C6 (amended): the entity round-trip holds for texts built from
non-ampersand literal characters, the named entities of `entityMap` (with
`&nbsp;` standing for the plain space the map decodes it to), and numeric
character references — decimal or lowercase-`x` hexadecimal — whose value
is a Unicode scalar value below 0x10000: rendering the tokens and decoding
recovers the denoted text exactly. -/
theorem c6_entity_roundtrip (ts : List EntityTok)
    (hv : ∀ t ∈ ts, validTok t ∧ literalTok t) :
    decodeHtmlEntities (strOf (renderToks ts)) = strOf (denoteToks ts) := by
  unfold decodeHtmlEntities
  rw [strOf_data]
  rw [scan_render ts (fun t ht => (hv t ht).1) _ (le_refl _)]

/-- Witness for C6 at a concrete token list. -/
theorem c6_witness :
    (∀ t ∈ ([.lit 'A', .named 0, .dec 9731, .hex 66, .named 6] : List EntityTok),
      validTok t ∧ literalTok t) ∧
    decodeHtmlEntities
        (strOf (renderToks [.lit 'A', .named 0, .dec 9731, .hex 66, .named 6])) =
      strOf (denoteToks [.lit 'A', .named 0, .dec 9731, .hex 66, .named 6]) :=
  ⟨by decide, c6_entity_roundtrip _ (by decide)⟩

/-- C7 counterexample: `&#zzz;` matches the entity pattern and is neither a
named entity nor a well-formed numeric reference, yet it is not left
unchanged — `parseInt` yields `NaN` and `fromCharCode` turns it into
U+0000. -/
theorem c7_counterexample : decodeHtmlEntities "&#zzz;" ≠ "&#zzz;" := by
  decide

/-- C7 (amended): the decoder is a total function; a token matching the
entity pattern that is not a known named entity and does not begin with
`&#` passes through unchanged — both at the callback (`resolveEntity`) and
through a whole scan of a text built from such tokens and literal
characters.  (Tokens beginning `&#` are always fed to the numeric path,
even when malformed — see the counterexample.) -/
theorem c7_unknown_pass_through :
    (∀ run : List Char, run ≠ [] → run.all isAlnumAscii = true →
      strOf (entityTok false run) ∉ entityMap.map Prod.fst →
      resolveEntity (strOf (entityTok false run)) = strOf (entityTok false run)) ∧
    (∀ ts : List EntityTok, (∀ t ∈ ts, validTok t ∧ passTok t) →
      decodeHtmlEntities (strOf (renderToks ts)) = strOf (renderToks ts)) := by
  constructor
  · intro run hne hall hkey
    exact resolveEntity_unknown hne hall hkey
  · intro ts hv
    have hdr : denoteToks ts = renderToks ts := by
      unfold denoteToks renderToks
      congr 1
      apply List.map_congr_left
      intro t ht
      have hp : passTok t := (hv t ht).2
      cases t with
      | lit c => rfl
      | unknown run => rfl
      | named i => exact absurd hp (by simp [passTok])
      | dec n => exact absurd hp (by simp [passTok])
      | hex n => exact absurd hp (by simp [passTok])
    unfold decodeHtmlEntities
    rw [strOf_data, scan_render ts (fun t ht => (hv t ht).1) _ (le_refl _), hdr]

/-- Witness for C7 at a concrete token and token list. -/
theorem c7_witness :
    ((['c', 'o', 'p', 'y'] : List Char) ≠ [] ∧
      (['c', 'o', 'p', 'y'] : List Char).all isAlnumAscii = true ∧
      strOf (entityTok false ['c', 'o', 'p', 'y']) ∉ entityMap.map Prod.fst) ∧
    resolveEntity (strOf (entityTok false ['c', 'o', 'p', 'y'])) =
      strOf (entityTok false ['c', 'o', 'p', 'y']) ∧
    decodeHtmlEntities
        (strOf (renderToks [.lit 'a', .unknown ['c', 'o', 'p', 'y']])) =
      strOf (renderToks [.lit 'a', .unknown ['c', 'o', 'p', 'y']]) :=
  ⟨by decide,
   c7_unknown_pass_through.1 _ (by decide) (by decide) (by decide),
   c7_unknown_pass_through.2 _ (by decide)⟩

/-- C1 counterexample: `ftp://example.com/file` parses (scheme `ftp`), the
handler performs no scheme check, validation passes, the fetch is attempted
(`didFetch = true`), and the outcome is the 200 fallback note — not an
error result. -/
theorem c1_counterexample :
    parseURL "ftp://example.com/file" = some ⟨"ftp", "example.com", "/file"⟩ ∧
    POST envMin "ftp://example.com/file" =
      ⟨defaultNote "ftp://example.com/file" "example.com", true, false⟩ := by
  constructor <;> decide

/-- C1 (amended): an empty input or one failing URL parse yields a 400
error result and no outward call; but the scheme is never checked — every
parseable URL (any scheme) passes validation and the fetch is attempted. -/
theorem c1_validation (env : Env) :
    POST env "" = ⟨.err "URLが指定されていません" 400, false, false⟩ ∧
    (∀ url : String, url ≠ "" → parseURL url = none →
      POST env url = ⟨.err "無効なURLです" 400, false, false⟩) ∧
    (∀ url u, url ≠ "" → parseURL url = some u → (POST env url).didFetch = true) := by
  refine ⟨by simp [POST], ?_, ?_⟩
  · intro url h1 h2
    simp [POST, h1, h2]
  · intro url u h1 h2
    simp only [POST, if_neg h1, h2]
    rcases env.fetchResult with _ | resp
    · rfl
    · by_cases hok : resp.ok
      · simp only [hok]
        by_cases hk : env.apiKey
        · simp only [hk]
          rcases env.openaiResult with _ | ⟨ok, s⟩
          · rfl
          · cases ok <;> rfl
        · simp only [hk]
          rfl
      · simp only [hok]
        rfl

/-- Witness for C1 at concrete inputs. -/
theorem c1_witness :
    (("" : String) ≠ "" → False) ∧
    POST envMin "" = ⟨.err "URLが指定されていません" 400, false, false⟩ ∧
    (("no spaces allowed" : String) ≠ "" ∧ parseURL "no spaces allowed" = none ∧
      POST envMin "no spaces allowed" = ⟨.err "無効なURLです" 400, false, false⟩) ∧
    (("https://example.com/page" : String) ≠ "" ∧
      parseURL "https://example.com/page" = some ⟨"https", "example.com", "/page"⟩ ∧
      (POST envMin "https://example.com/page").didFetch = true) :=
  ⟨fun h => h rfl,
   (c1_validation envMin).1,
   ⟨by decide, by decide,
    (c1_validation envMin).2.1 _ (by decide) (by decide)⟩,
   ⟨by decide, by decide,
    (c1_validation envMin).2.2 "https://example.com/page"
      ⟨"https", "example.com", "/page"⟩ (by decide) (by decide)⟩⟩

theorem POST_fetch_ok (env : Env) (url : String) (u : URLRec) (resp : HttpResponse)
    (h1 : url ≠ "") (h2 : parseURL url = some u) (h3 : env.fetchResult = some resp)
    (h4 : resp.ok = true) :
    POST env url =
      (if env.apiKey then
        match env.openaiResult with
        | none => ⟨fallbackNote url u.hostname u.pathname, true, true⟩
        | some (true, summary) =>
          ⟨.ok (extractTitle (resolveCharset env resp.contentType resp.body) u.hostname)
            (aiTemplate (extractTitle (resolveCharset env resp.contentType resp.body) u.hostname)
              url summary), true, true⟩
        | some (false, _) =>
          ⟨.ok (extractTitle (resolveCharset env resp.contentType resp.body) u.hostname)
            (excerptTemplate
              (extractTitle (resolveCharset env resp.contentType resp.body) u.hostname)
              url (bodyText (resolveCharset env resp.contentType resp.body))), true, true⟩
      else
        ⟨.ok (extractTitle (resolveCharset env resp.contentType resp.body) u.hostname)
          (excerptTemplate
            (extractTitle (resolveCharset env resp.contentType resp.body) u.hostname)
            url (bodyText (resolveCharset env resp.contentType resp.body))), true, false⟩) := by
  simp only [POST, if_neg h1, h2, h3, h4, not_true, if_false]

/-- C10: with no summarization credential, the content produced for a
successful fetch is the excerpt template — heading, URL line, a 概要
section holding exactly the first 500 characters of the decoded body
excerpt always followed by the literal `...`, and the markdown link —
regardless of whether the excerpt is shorter than 500 characters. -/
theorem c10_excerpt_template (env : Env) (url : String) (u : URLRec) (resp : HttpResponse)
    (h1 : url ≠ "") (h2 : parseURL url = some u) (h3 : env.fetchResult = some resp)
    (h4 : resp.ok = true) (h5 : env.apiKey = false) :
    (POST env url).result =
      .ok (extractTitle (resolveCharset env resp.contentType resp.body) u.hostname)
        ("# " ++ extractTitle (resolveCharset env resp.contentType resp.body) u.hostname
          ++ "\n\nURL: " ++ url ++ "\n\n## 概要\n\n"
          ++ strOf ((bodyText (resolveCharset env resp.contentType resp.body)).data.take 500)
          ++ "...\n\n[元のページを開く](" ++ url ++ ")") := by
  rw [POST_fetch_ok env url u resp h1 h2 h3 h4]
  simp only [h5, if_false, excerptTemplate]
  rfl

/-- Witness for C10: the scenario page's excerpt is 11 characters, far
below 500, and the `...` suffix is still appended. -/
theorem c10_witness :
    (scenarioURL ≠ "" ∧ parseURL scenarioURL = some ⟨"https", "example.com", "/page"⟩ ∧
      envPage.fetchResult = some ⟨true, 200, "", [1]⟩ ∧ envPage.apiKey = false) ∧
    (POST envPage scenarioURL).result =
      .ok (extractTitle (resolveCharset envPage "" [1]) "example.com")
        ("# " ++ extractTitle (resolveCharset envPage "" [1]) "example.com"
          ++ "\n\nURL: " ++ scenarioURL ++ "\n\n## 概要\n\n"
          ++ strOf ((bodyText (resolveCharset envPage "" [1])).data.take 500)
          ++ "...\n\n[元のページを開く](" ++ scenarioURL ++ ")") ∧
    (POST envPage scenarioURL).result = .ok "Hello" scenarioContent :=
  ⟨⟨by decide, by decide, rfl, rfl⟩,
   c10_excerpt_template envPage scenarioURL ⟨"https", "example.com", "/page"⟩
     ⟨true, 200, "", [1]⟩ (by decide) (by decide) rfl rfl rfl,
   by decide⟩

/-- C4 counterexample: with a credential present and a transport-level
error of the provider call (`openaiResult = none`), the handler lands in
the outer catch and returns the host fallback note — not the excerpt-only
template. -/
theorem c4_counterexample :
    POST envPageAI scenarioURL =
      ⟨defaultNote scenarioURL "example.com", true, true⟩ ∧
    defaultNote scenarioURL "example.com" ≠
      .ok "Hello" (excerptTemplate "Hello" scenarioURL "Hello World") := by
  constructor <;> decide

/-- C4 (amended): on missing credential or a non-2xx provider response the
pipeline produces the excerpt-only template and surfaces no error; a
transport-level error of the provider call is caught by the outer handler
and yields the host-specific fallback note instead — also a 200 result,
never an error. -/
theorem c4_summarizer_degradation (env : Env) (url : String) (u : URLRec)
    (resp : HttpResponse) (h1 : url ≠ "") (h2 : parseURL url = some u)
    (h3 : env.fetchResult = some resp) (h4 : resp.ok = true) :
    (env.apiKey = false →
      (POST env url).result =
        .ok (extractTitle (resolveCharset env resp.contentType resp.body) u.hostname)
          (excerptTemplate
            (extractTitle (resolveCharset env resp.contentType resp.body) u.hostname)
            url (bodyText (resolveCharset env resp.contentType resp.body)))) ∧
    (∀ s, env.apiKey = true → env.openaiResult = some (false, s) →
      (POST env url).result =
        .ok (extractTitle (resolveCharset env resp.contentType resp.body) u.hostname)
          (excerptTemplate
            (extractTitle (resolveCharset env resp.contentType resp.body) u.hostname)
            url (bodyText (resolveCharset env resp.contentType resp.body)))) ∧
    (env.apiKey = true → env.openaiResult = none →
      POST env url = ⟨fallbackNote url u.hostname u.pathname, true, true⟩) := by
  refine ⟨?_, ?_, ?_⟩
  · intro h5
    rw [POST_fetch_ok env url u resp h1 h2 h3 h4]
    simp [h5]
  · intro s h5 h6
    rw [POST_fetch_ok env url u resp h1 h2 h3 h4]
    simp [h5, h6]
  · intro h5 h6
    rw [POST_fetch_ok env url u resp h1 h2 h3 h4]
    simp [h5, h6]

/-- Witness for C4: the three degradation paths at concrete environments. -/
theorem c4_witness :
    (envPage.apiKey = false ∧
      (POST envPage scenarioURL).result = .ok "Hello" scenarioContent) ∧
    (envPageAIBad.apiKey = true ∧ envPageAIBad.openaiResult = some (false, "") ∧
      (POST envPageAIBad scenarioURL).result = .ok "Hello" scenarioContent) ∧
    (envPageAI.apiKey = true ∧ envPageAI.openaiResult = none ∧
      POST envPageAI scenarioURL =
        ⟨fallbackNote scenarioURL "example.com" "/page", true, true⟩) :=
  ⟨⟨rfl, by
      have := (c4_summarizer_degradation envPage scenarioURL
        ⟨"https", "example.com", "/page"⟩ ⟨true, 200, "", [1]⟩
        (by decide) (by decide) rfl rfl).1 rfl
      rw [this]; decide⟩,
   ⟨rfl, rfl, by
      have := (c4_summarizer_degradation envPageAIBad scenarioURL
        ⟨"https", "example.com", "/page"⟩ ⟨true, 200, "", [1]⟩
        (by decide) (by decide) rfl rfl).2.1 "" rfl rfl
      rw [this]; decide⟩,
   ⟨rfl, rfl, by
      have := (c4_summarizer_degradation envPageAI scenarioURL
        ⟨"https", "example.com", "/page"⟩ ⟨true, 200, "", [1]⟩
        (by decide) (by decide) rfl rfl).2.2 rfl rfl
      rw [this]⟩⟩

theorem resolveCharset_header_some (env : Env) (ct : String) (buffer : Bytes)
    (detected s : String) (h1 : extractHeaderCharset ct.data = some detected)
    (h2 : env.strictDecode detected buffer = some s) :
    resolveCharset env ct buffer = s := by
  unfold resolveCharset
  rw [h1]
  show (match env.strictDecode detected buffer with
        | some d => d
        | none => tryDecodeWithCharsets env buffer) = s
  rw [h2]

theorem resolveCharset_header_fail (env : Env) (ct : String) (buffer : Bytes)
    (detected : String) (h1 : extractHeaderCharset ct.data = some detected)
    (h2 : env.strictDecode detected buffer = none) :
    resolveCharset env ct buffer = tryDecodeWithCharsets env buffer := by
  unfold resolveCharset
  rw [h1]
  show (match env.strictDecode detected buffer with
        | some d => d
        | none => tryDecodeWithCharsets env buffer) = tryDecodeWithCharsets env buffer
  rw [h2]

theorem resolveCharset_no_header (env : Env) (ct : String) (buffer : Bytes)
    (h : extractHeaderCharset ct.data = none) :
    resolveCharset env ct buffer =
      (match extractMetaCharset (tryDecodeWithCharsets env buffer) with
       | some raw =>
         if strOf (raw.data.map lcChar) ≠ "utf-8" ∧
             ¬ containsRepl (tryDecodeWithCharsets env buffer) = true then
           match env.strictDecode (strOf (raw.data.map lcChar)) buffer with
           | some reDecoded =>
             if ¬ containsRepl reDecoded = true then reDecoded
             else tryDecodeWithCharsets env buffer
           | none => tryDecodeWithCharsets env buffer
         else tryDecodeWithCharsets env buffer
       | none => tryDecodeWithCharsets env buffer) := by
  unfold resolveCharset
  rw [h]

/-- C5 counterexample: in the scenario fetch the content contains the
original URL twice (the `URL:` line and the markdown link), not exactly
once. -/
theorem c5_counterexample :
    (POST envPage scenarioURL).result = .ok "Hello" scenarioContent ∧
    countOccurs scenarioURL.data scenarioContent.data ≠ 1 := by
  constructor <;> decide

/-- C5 (amended): fetching a document whose HTML is the scenario page
(`<title>Hello</title>`, body text `World`) with no credential yields
`title = "Hello"` and a content that contains `World` — and contains the
original URL exactly twice, once as a plain `URL:` line and once inside
the markdown link. -/
theorem c5_scenario (env : Env) (resp : HttpResponse)
    (h3 : env.fetchResult = some resp) (h4 : resp.ok = true)
    (hct : resp.contentType = "")
    (hdec : env.strictDecode "utf-8" resp.body = some pageHtml)
    (h5 : env.apiKey = false) :
    (POST env scenarioURL).result = .ok "Hello" scenarioContent ∧
    strIncludes scenarioContent "World" = true ∧
    countOccurs scenarioURL.data scenarioContent.data = 2 := by
  have htry : tryDecodeWithCharsets env resp.body = pageHtml := by
    unfold tryDecodeWithCharsets charsetsList
    rw [List.findSome?_cons]
    simp only [hdec]
    rw [if_neg (by decide : ¬ containsRepl pageHtml = true)]
  have hresolve : resolveCharset env resp.contentType resp.body = pageHtml := by
    rw [hct]
    rw [resolveCharset_no_header env "" resp.body rfl]
    rw [htry]
    rw [show extractMetaCharset pageHtml = none from by decide]
  have hpost := POST_fetch_ok env scenarioURL ⟨"https", "example.com", "/page"⟩ resp
    (by decide) (by decide) h3 h4
  rw [hpost]
  simp only [h5]
  rw [if_neg (by simp)]
  rw [hresolve]
  exact ⟨by decide, by decide, by decide⟩

/-- Witness for C5 at the concrete environment. -/
theorem c5_witness :
    (envPage.fetchResult = some ⟨true, 200, "", [1]⟩ ∧ envPage.apiKey = false ∧
      envPage.strictDecode "utf-8" [1] = some pageHtml) ∧
    (POST envPage scenarioURL).result = .ok "Hello" scenarioContent ∧
    strIncludes scenarioContent "World" = true ∧
    countOccurs scenarioURL.data scenarioContent.data = 2 :=
  ⟨⟨rfl, rfl, rfl⟩,
   c5_scenario envPage ⟨true, 200, "", [1]⟩ rfl rfl rfl rfl rfl⟩

theorem POST_fetch_fail (env : Env) (url : String) (u : URLRec)
    (h1 : url ≠ "") (h2 : parseURL url = some u)
    (hfail : env.fetchResult = none ∨
      ∃ resp, env.fetchResult = some resp ∧ resp.ok = false) :
    POST env url = ⟨fallbackNote url u.hostname u.pathname, true, false⟩ := by
  rcases hfail with hnone | ⟨resp, hsome, hok⟩
  · simp only [POST, if_neg h1, h2, hnone]
  · simp only [POST, if_neg h1, h2, hsome, hok]
    rfl

theorem pathSegments_ne_empty (p : String) : ∀ s ∈ pathSegments p, s ≠ "" := by
  intro s hs
  unfold pathSegments at hs
  exact of_decide_eq_true (List.mem_filter.mp hs).2

set_option maxRecDepth 4000 in
/-- C9 counterexample: a fetch failure against hostname
`github.com.slack.com` — which contains the code-hosting marker
`github.com` and has path `/owner/repo` — is dispatched to the Slack
branch (checked first): the note is the Slack note and its title does not
name the `owner/repo` pair. -/
theorem c9_counterexample :
    strIncludes "github.com.slack.com" "github.com" = true ∧
    pathSegments "/owner/repo" = ["owner", "repo"] ∧
    (POST envMin "https://github.com.slack.com/owner/repo").result =
      .ok "Slack - repo" slackContent9 ∧
    strIncludes "Slack - repo" "owner/repo" = false := by
  refine ⟨by decide, by decide, by decide, by decide⟩

/-- C9 (amended): for a fetch failure against a hostname containing
`github.com` but not the higher-priority marker `slack.com`, with two or
more path segments, the note is the GitHub note and both its title and its
body contain the `owner/repo` pair formed from the first two segments. -/
theorem c9_github_fallback (env : Env) (url : String) (u : URLRec)
    (p0 p1 : String) (rest : List String)
    (h1 : url ≠ "") (h2 : parseURL url = some u)
    (hfail : env.fetchResult = none ∨
      ∃ resp, env.fetchResult = some resp ∧ resp.ok = false)
    (hgit : strIncludes u.hostname "github.com" = true)
    (hslack : strIncludes u.hostname "slack.com" = false)
    (hsegs : pathSegments u.pathname = p0 :: p1 :: rest) :
    (POST env url).result = githubNote url (p0 :: p1 :: rest) p0 p1 ∧
    (∃ tSuf, githubNote url (p0 :: p1 :: rest) p0 p1 =
      .ok ("GitHub - " ++ (p0 ++ "/" ++ p1) ++ tSuf)
        ("# GitHub リンク\n\nURL: " ++ url ++ "\n\nリポジトリ: " ++
          (p0 ++ "/" ++ p1) ++ "\n\n[GitHubで開く](" ++ url ++ ")")) := by
  have hp1 : p1 ≠ "" := by
    apply pathSegments_ne_empty u.pathname
    rw [hsegs]
    simp
  constructor
  · rw [POST_fetch_fail env url u h1 h2 hfail]
    show fallbackNote url u.hostname u.pathname = _
    unfold fallbackNote
    rw [hslack, hgit, hsegs]
    rfl
  · obtain ⟨t, ht⟩ : ∃ t, joinSlash (p1 :: rest) = p1 ++ t := by
      cases rest with
      | nil => exact ⟨"", by simp [joinSlash]⟩
      | cons q qs =>
        refine ⟨"/" ++ joinSlash (q :: qs), ?_⟩
        rw [show joinSlash (p1 :: q :: qs) = p1 ++ "/" ++ joinSlash (q :: qs) from rfl,
          String.append_assoc]
    refine ⟨t, ?_⟩
    unfold githubNote
    rw [if_neg hp1]
    rw [show joinSlash (p0 :: p1 :: rest) = p0 ++ "/" ++ joinSlash (p1 :: rest) from rfl]
    rw [ht]
    simp [String.append_assoc]

/-- Witness for C9 at a concrete failing fetch of a GitHub URL. -/
theorem c9_witness :
    (("https://github.com/owner/repo" : String) ≠ "" ∧
      parseURL "https://github.com/owner/repo" =
        some ⟨"https", "github.com", "/owner/repo"⟩ ∧
      (envMin.fetchResult = none ∨
        ∃ resp, envMin.fetchResult = some resp ∧ resp.ok = false) ∧
      strIncludes "github.com" "github.com" = true ∧
      strIncludes "github.com" "slack.com" = false ∧
      pathSegments "/owner/repo" = ["owner", "repo"]) ∧
    ((POST envMin "https://github.com/owner/repo").result =
        githubNote "https://github.com/owner/repo" ["owner", "repo"] "owner" "repo" ∧
      ∃ tSuf, githubNote "https://github.com/owner/repo" ["owner", "repo"] "owner" "repo" =
        .ok ("GitHub - " ++ ("owner" ++ "/" ++ "repo") ++ tSuf)
          ("# GitHub リンク\n\nURL: " ++ "https://github.com/owner/repo" ++
            "\n\nリポジトリ: " ++ ("owner" ++ "/" ++ "repo") ++
            "\n\n[GitHubで開く](" ++ "https://github.com/owner/repo" ++ ")")) :=
  ⟨⟨by decide, by decide, Or.inl rfl, by decide, by decide, by decide⟩,
   c9_github_fallback envMin "https://github.com/owner/repo"
     ⟨"https", "github.com", "/owner/repo"⟩ "owner" "repo" []
     (by decide) (by decide) (Or.inl rfl) (by decide) (by decide) (by decide)⟩

/-- C2 counterexample: the Content-Type header declares `utf-8`, the strict
declared decode succeeds, and the decoded text self-declares `shift_jis`
(different from the charset used and not UTF-8) whose strict re-decode is
clean and different — yet the result remains the declared decode: no meta
scan happens on the declared-header path. -/
theorem c2_counterexample :
    extractHeaderCharset ("text/html; charset=utf-8" : String).data = some "utf-8" ∧
    envMeta.strictDecode "utf-8" [60] = some metaHtmlU8 ∧
    extractMetaCharset metaHtmlU8 = some "shift_jis" ∧
    envMeta.strictDecode "shift_jis" [60] = some metaHtmlSJ ∧
    containsRepl metaHtmlSJ = false ∧
    resolveCharset envMeta "text/html; charset=utf-8" [60] = metaHtmlU8 ∧
    metaHtmlU8 ≠ metaHtmlSJ := by
  refine ⟨by decide, rfl, by decide, rfl, by decide, ?_, by decide⟩
  exact resolveCharset_header_some envMeta _ _ "utf-8" metaHtmlU8 (by decide) rfl

/-- C2 (amended): the meta-charset scan runs only when the Content-Type
header declares no charset.  With a declared charset whose strict decode
succeeds, that decode is the result outright; without one, after the
candidate trial, a self-declared meta charset — when its lowercased value
is not the literal `utf-8` and the current decode has no placeholder
characters — triggers a strict re-decode of the original bytes, whose
result replaces the current decode exactly when it succeeds without
placeholder characters; in every other case the candidate-trial result
stands. -/
theorem c2_meta_scan (env : Env) (ct : String) (buffer : Bytes) :
    (∀ detected s, extractHeaderCharset ct.data = some detected →
      env.strictDecode detected buffer = some s →
      resolveCharset env ct buffer = s) ∧
    (∀ raw re, extractHeaderCharset ct.data = none →
      extractMetaCharset (tryDecodeWithCharsets env buffer) = some raw →
      strOf (raw.data.map lcChar) ≠ "utf-8" →
      containsRepl (tryDecodeWithCharsets env buffer) = false →
      env.strictDecode (strOf (raw.data.map lcChar)) buffer = some re →
      containsRepl re = false →
      resolveCharset env ct buffer = re) ∧
    (∀ raw, extractHeaderCharset ct.data = none →
      extractMetaCharset (tryDecodeWithCharsets env buffer) = some raw →
      (strOf (raw.data.map lcChar) = "utf-8" ∨
        containsRepl (tryDecodeWithCharsets env buffer) = true ∨
        env.strictDecode (strOf (raw.data.map lcChar)) buffer = none ∨
        (∃ re, env.strictDecode (strOf (raw.data.map lcChar)) buffer = some re ∧
          containsRepl re = true)) →
      resolveCharset env ct buffer = tryDecodeWithCharsets env buffer) ∧
    (extractHeaderCharset ct.data = none →
      extractMetaCharset (tryDecodeWithCharsets env buffer) = none →
      resolveCharset env ct buffer = tryDecodeWithCharsets env buffer) := by
  refine ⟨?_, ?_, ?_, ?_⟩
  · intro detected s h1 h2
    exact resolveCharset_header_some env ct buffer detected s h1 h2
  · intro raw re hh hm hneq hclean hdec hre
    rw [resolveCharset_no_header env ct buffer hh, hm]
    show (if strOf (raw.data.map lcChar) ≠ "utf-8" ∧
        ¬ containsRepl (tryDecodeWithCharsets env buffer) = true then
      match env.strictDecode (strOf (raw.data.map lcChar)) buffer with
      | some reDecoded =>
        if ¬ containsRepl reDecoded = true then reDecoded
        else tryDecodeWithCharsets env buffer
      | none => tryDecodeWithCharsets env buffer
      else tryDecodeWithCharsets env buffer) = re
    rw [if_pos ⟨hneq, by rw [hclean]; simp⟩, hdec]
    show (if ¬ containsRepl re = true then re
      else tryDecodeWithCharsets env buffer) = re
    rw [if_pos (by rw [hre]; simp)]
  · intro raw hh hm hfailcase
    rw [resolveCharset_no_header env ct buffer hh, hm]
    show (if strOf (raw.data.map lcChar) ≠ "utf-8" ∧
        ¬ containsRepl (tryDecodeWithCharsets env buffer) = true then
      match env.strictDecode (strOf (raw.data.map lcChar)) buffer with
      | some reDecoded =>
        if ¬ containsRepl reDecoded = true then reDecoded
        else tryDecodeWithCharsets env buffer
      | none => tryDecodeWithCharsets env buffer
      else tryDecodeWithCharsets env buffer) = tryDecodeWithCharsets env buffer
    rcases hfailcase with hutf | hdirty | hnone | ⟨re, hre, hredirty⟩
    · rw [if_neg (by simp [hutf])]
    · rw [if_neg (by simp [hdirty])]
    · by_cases hcond : strOf (raw.data.map lcChar) ≠ "utf-8" ∧
          ¬ containsRepl (tryDecodeWithCharsets env buffer) = true
      · rw [if_pos hcond, hnone]
      · rw [if_neg hcond]
    · by_cases hcond : strOf (raw.data.map lcChar) ≠ "utf-8" ∧
          ¬ containsRepl (tryDecodeWithCharsets env buffer) = true
      · rw [if_pos hcond, hre]
        show (if ¬ containsRepl re = true then re
          else tryDecodeWithCharsets env buffer) = tryDecodeWithCharsets env buffer
        rw [if_neg (by simp [hredirty])]
      · rw [if_neg hcond]
  · intro hh hm
    rw [resolveCharset_no_header env ct buffer hh, hm]

/-- Witness for C2: both the declared-header path and the meta-replacement
path at the concrete environment. -/
theorem c2_witness :
    (extractHeaderCharset ("text/html; charset=utf-8" : String).data = some "utf-8" ∧
      envMeta.strictDecode "utf-8" [60] = some metaHtmlU8 ∧
      resolveCharset envMeta "text/html; charset=utf-8" [60] = metaHtmlU8) ∧
    (extractHeaderCharset ("text/html" : String).data = none ∧
      extractMetaCharset (tryDecodeWithCharsets envMeta [60]) = some "shift_jis" ∧
      resolveCharset envMeta "text/html" [60] = metaHtmlSJ) :=
  ⟨⟨by decide, rfl,
    (c2_meta_scan envMeta "text/html; charset=utf-8" [60]).1 "utf-8" metaHtmlU8
      (by decide) rfl⟩,
   ⟨by decide, by decide,
    (c2_meta_scan envMeta "text/html" [60]).2.1 "shift_jis" metaHtmlSJ
      (by decide) (by decide) (by decide) (by decide) rfl (by decide)⟩⟩

theorem findSome?_append_none {α β : Type} (f : α → Option β) {pre : List α}
    (l : List α) (h : ∀ x ∈ pre, f x = none) :
    (pre ++ l).findSome? f = l.findSome? f := by
  induction pre with
  | nil => rfl
  | cons a t ih =>
    rw [List.cons_append, List.findSome?_cons]
    rw [h a (List.mem_cons_self a t)]
    exact ih (fun x hx => h x (List.mem_cons_of_mem _ hx))

theorem findSome?_all_none {α β : Type} (f : α → Option β) {l : List α}
    (h : ∀ x ∈ l, f x = none) : l.findSome? f = none := by
  induction l with
  | nil => rfl
  | cons a t ih =>
    rw [List.findSome?_cons, h a (List.mem_cons_self a t)]
    exact ih (fun x hx => h x (List.mem_cons_of_mem _ hx))

/-- C3 counterexample: the bytes `61 (EF BF BD)² 62` with declared header
charset `utf-8`: the declared strict decode succeeds but contains
placeholder characters, while two candidates (`shift_jis` and `euc-jp`)
decode cleanly — yet the resolver keeps the dirty declared decode instead
of the first cleanly-decoding candidate. -/
theorem c3_counterexample :
    extractHeaderCharset ("text/html; charset=utf-8" : String).data = some "utf-8" ∧
    envDirty.strictDecode "utf-8" dirtyBytes = some dirtyU8 ∧
    containsRepl dirtyU8 = true ∧
    envDirty.strictDecode "shift_jis" dirtyBytes = some cleanSJ ∧
    containsRepl cleanSJ = false ∧
    envDirty.strictDecode "euc-jp" dirtyBytes = some cleanEUC ∧
    containsRepl cleanEUC = false ∧
    resolveCharset envDirty "text/html; charset=utf-8" dirtyBytes = dirtyU8 ∧
    dirtyU8 ≠ cleanSJ := by
  refine ⟨by decide, rfl, by decide, rfl, by decide, rfl, by decide, ?_, by decide⟩
  exact resolveCharset_header_some envDirty _ _ "utf-8" dirtyU8 (by decide) rfl

/-- C3 (amended): charset resolution is the fixed priority chain — a
declared header charset whose strict decode succeeds is accepted outright
(without a placeholder check); otherwise `tryDecodeWithCharsets` returns
the strict decode of the first candidate of
`[utf-8, shift_jis, euc-jp, iso-2022-jp]` that succeeds without placeholder
characters; and when no candidate decodes cleanly its result is the lossy
UTF-8 decode, which never fails. -/
theorem c3_charset_priority (env : Env) (buffer : Bytes) :
    (∀ ct detected s, extractHeaderCharset ct.data = some detected →
      env.strictDecode detected buffer = some s →
      resolveCharset env ct buffer = s) ∧
    (∀ pre c post s, charsetsList = pre ++ c :: post →
      (∀ c' ∈ pre, ∀ s', env.strictDecode c' buffer = some s' →
        containsRepl s' = true) →
      env.strictDecode c buffer = some s → containsRepl s = false →
      tryDecodeWithCharsets env buffer = s) ∧
    ((∀ c ∈ charsetsList, ∀ s, env.strictDecode c buffer = some s →
        containsRepl s = true) →
      tryDecodeWithCharsets env buffer = env.lossyUtf8 buffer) := by
  have hprobe : ∀ c', (∀ s', env.strictDecode c' buffer = some s' →
      containsRepl s' = true) →
      (match env.strictDecode c' buffer with
       | some d => if containsRepl d then none else some d
       | none => none) = (none : Option String) := by
    intro c' hc'
    cases hd : env.strictDecode c' buffer with
    | none => rfl
    | some d => simp [hc' d hd]
  refine ⟨?_, ?_, ?_⟩
  · intro ct detected s h1 h2
    exact resolveCharset_header_some env ct buffer detected s h1 h2
  · intro pre c post s hlist hpre hdec hclean
    unfold tryDecodeWithCharsets
    rw [hlist]
    rw [findSome?_append_none _ _ (fun x hx => hprobe x (hpre x hx))]
    rw [List.findSome?_cons]
    simp only [hdec, hclean, Bool.false_eq_true, if_false]
  · intro hall
    unfold tryDecodeWithCharsets
    rw [findSome?_all_none _ (fun x hx => hprobe x (hall x hx))]

/-- Witness for C3: the declared path, the first-clean-candidate path and
the lossy last resort at concrete environments. -/
theorem c3_witness :
    (extractHeaderCharset ("text/html; charset=utf-8" : String).data = some "utf-8" ∧
      envPage.strictDecode "utf-8" [1] = some pageHtml ∧
      resolveCharset envPage "text/html; charset=utf-8" [1] = pageHtml) ∧
    (charsetsList = [] ++ "utf-8" :: ["shift_jis", "euc-jp", "iso-2022-jp"] ∧
      envPage.strictDecode "utf-8" [1] = some pageHtml ∧
      containsRepl pageHtml = false ∧
      tryDecodeWithCharsets envPage [1] = pageHtml) ∧
    ((∀ c ∈ charsetsList, ∀ s, envMin.strictDecode c [1] = some s →
        containsRepl s = true) ∧
      tryDecodeWithCharsets envMin [1] = envMin.lossyUtf8 [1]) :=
  ⟨⟨by decide, rfl,
    (c3_charset_priority envPage [1]).1 "text/html; charset=utf-8" "utf-8" pageHtml
      (by decide) rfl⟩,
   ⟨rfl, rfl, by decide,
    (c3_charset_priority envPage [1]).2.1 [] "utf-8" ["shift_jis", "euc-jp", "iso-2022-jp"]
      pageHtml rfl (by intro c' hc'; exact absurd hc' (by simp)) rfl (by decide)⟩,
   ⟨by intro c hc s hs; exact absurd hs (by simp [envMin]),
    (c3_charset_priority envMin [1]).2.2
      (by intro c hc s hs; exact absurd hs (by simp [envMin]))⟩⟩

end KWA
